import Mathlib

/-!
A verification development for the `listen` transcription service
(Go backend, `internal/pipeline`, `internal/jobs`, `internal/store`).

The Go sources are embedded shallowly:

* `float64` values are modelled as `ℚ` (all arithmetic in scope is exact:
  divisions by 1000, multiplications by 1/100, additions of offsets);
* Go `int` progress/count values are modelled as `ℕ` (all values in scope are
  non-negative, and Go's truncating division coincides with `Nat` division);
* nullable pointers are `Option`;
* fallible calls return `Except`;
* the SQLite database is a record of row lists, and the one transaction in
  scope (`CreateTranscriptWithSegments`) either commits all of its rows or
  leaves the database unchanged (deferred rollback).
-/

namespace Listen

/-- Go `strconv.Atoi`: an optional sign followed by at least one decimal
digit; anything else is an error (modelled as `none`).  Overflow is ignored
(irrelevant at the inputs considered here). -/
def goAtoi (s : String) : Option Int :=
  let neg := s.startsWith "-"
  let digits := if s.startsWith "-" || s.startsWith "+" then s.drop 1 else s
  if digits.isEmpty then none
  else if digits.all Char.isDigit then
    let n : Nat := digits.foldl (fun a c => a * 10 + (c.toNat - 48)) 0
    some (if neg then -(n : Int) else (n : Int))
  else none

/-- Go `unicode.IsSpace` on the characters that can occur here (Latin-1
white space). -/
def isGoSpace (c : Char) : Bool :=
  c = ' ' || c = '\t' || c = '\n' || c.toNat = 0xB || c.toNat = 0xC || c = '\r' ||
    c.toNat = 0x85 || c.toNat = 0xA0

/-- Go `strings.TrimSpace`. -/
def goTrimSpace (s : String) : String :=
  (((s.toList.dropWhile isGoSpace).reverse.dropWhile isGoSpace).reverse).asString

/-- Embeds `pipeline.Segment` (Go field `End` is a Lean keyword, rendered `endT`). -/
structure Segment where
  start : ℚ
  endT : ℚ
  text : String
deriving Repr, DecidableEq

/-- JSON shape `whisperOffsets` (`from`/`to` in milliseconds; `from` is a
Lean keyword, rendered `fromMs`/`toMs`). -/
structure whisperOffsets where
  fromMs : Option Int := none
  toMs : Option Int := none
deriving Repr, DecidableEq

/-- JSON shape `whisperTimestamps` (string timestamps). -/
structure whisperTimestamps where
  fromStr : String := ""
  toStr : String := ""
deriving Repr, DecidableEq

/-- JSON shape `whisperResult`. -/
structure whisperResult where
  language : String := ""
deriving Repr, DecidableEq

/-- JSON shape `whisperSeg`: one raw segment record of engine output.
Fields `Start`/`End` are rendered `start?`/`end?`. -/
structure whisperSeg where
  text : String := ""
  start? : Option ℚ := none
  end? : Option ℚ := none
  t0 : Option Int := none
  t1 : Option Int := none
  offsets : Option whisperOffsets := none
  timestamps : Option whisperTimestamps := none
  timeStanps : Option whisperTimestamps := none
deriving Repr, DecidableEq

/-- JSON shape `whisperJSON`: a decoded, structurally valid engine output
document (the `json.Unmarshal` step itself is outside this model; its only
failure mode is structurally invalid bytes). -/
structure whisperJSON where
  text : String := ""
  language : String := ""
  result : Option whisperResult := none
  segments : List whisperSeg := []
  transcription : List whisperSeg := []
deriving Repr, DecidableEq

/-- Go `strings.TrimRight(ms, "Z")`. -/
def trimRightZ (s : String) : String :=
  ((s.toList.reverse.dropWhile (· = 'Z')).reverse).asString

/-- Embeds `pipeline.parseTimestamp`: parses `"HH:MM:SS[.mmm]"` to seconds.  The
fractional part is truncated to three digits, right-padded with zeros, and a
failed `Atoi` of the fractional part silently leaves it `0` (Go discards that
error and `Atoi` returns `0`). -/
def parseTimestamp (v : String) : Except String ℚ :=
  let v := goTrimSpace v
  match v.splitOn ":" with
  | [p0, p1, p2] =>
    match goAtoi p0 with
    | none => Except.error "bad hour"
    | some h =>
      match goAtoi p1 with
      | none => Except.error "bad minute"
      | some m =>
        let secPart := p2
        let sStr := if secPart.contains '.' then secPart.takeWhile (· ≠ '.') else secPart
        let msStr := if secPart.contains '.' then secPart.drop (sStr.length + 1) else "0"
        match goAtoi sStr with
        | none => Except.error "bad second"
        | some sec =>
          let ms := trimRightZ msStr
          let msInt : Int :=
            if ms = "" then 0
            else
              let ms := if ms.length > 3 then ms.take 3 else ms
              let ms := ms ++ String.mk (List.replicate (3 - ms.length) '0')
              (goAtoi ms).getD 0
          Except.ok ((h * 3600 + m * 60 + sec : Int) + (msInt : ℚ) / 1000)
  | _ => Except.error ("bad timestamp: " ++ v)

/-- Embeds `pipeline.segTimesSeconds`: the ordered fallback chain extracting
start/end seconds from a raw segment record.  Returns `none` where the Go
function returns `ok = false`. -/
def segTimesSeconds (s : whisperSeg) : Option (ℚ × ℚ) :=
  match s.offsets with
  | some ⟨some f, some t⟩ => some ((f : ℚ) / 1000, (t : ℚ) / 1000)
  | _ =>
    match s.start?, s.end? with
    | some a, some b => some (a, b)
    | _, _ =>
      match s.t0, s.t1 with
      | some a, some b => some ((a : ℚ) * (1 / 100), (b : ℚ) * (1 / 100))
      | _, _ =>
        match (match s.timestamps with | some ts => some ts | none => s.timeStanps) with
        | some ts =>
          if ts.fromStr ≠ "" ∧ ts.toStr ≠ "" then
            match parseTimestamp ts.fromStr, parseTimestamp ts.toStr with
            | Except.ok a, Except.ok b => some (a, b)
            | _, _ => none
          else none
        | none => none

/-- The body of the `parseWhisperJSON` loop for one record: the record
contributes a `Segment` exactly when `segTimesSeconds` succeeds and its text
is non-empty after trimming. -/
def usableSegment (s : whisperSeg) : Option Segment :=
  match segTimesSeconds s with
  | none => none
  | some (a, b) =>
    let txt := goTrimSpace s.text
    if txt = "" then none else some ⟨a, b, txt⟩

/-- Embeds the source's choice of segment list: `w.Segments`, falling back
to `w.Transcription` when `w.Segments` is empty. -/
def effectiveSegs (w : whisperJSON) : List whisperSeg :=
  if w.segments.isEmpty then w.transcription else w.segments

/-- Embeds `pipeline.parseWhisperJSON` on a decoded document: returns the usable
segments, the chunk text (document-level `text` when non-empty after
trimming, otherwise the space-joined surviving segment texts), and the
language.  Total: no failure is possible past JSON decoding. -/
def parseWhisperJSON (w : whisperJSON) : List Segment × String × Option String :=
  let lang0 := goTrimSpace w.language
  let lang := if lang0 = "" then (match w.result with | some r => goTrimSpace r.language | none => lang0) else lang0
  let langPtr := if lang = "" then none else some lang
  let out := (effectiveSegs w).filterMap usableSegment
  let parts := out.map Segment.text
  let text0 := goTrimSpace w.text
  let text := if text0 = "" then String.intercalate " " parts else text0
  (out, text, langPtr)

/-! ### Spec-side definitions for the fallback chain (claim C1)

These four strategies follow the wording of §4.2 of the spec; the claim is
that `segTimesSeconds` equals their ordered `orElse` chain. -/

/-- Spec strategy 1: explicit millisecond offset pair, seconds = ms / 1000. -/
def specMsOffsets (s : whisperSeg) : Option (ℚ × ℚ) :=
  match s.offsets with
  | some o =>
    match o.fromMs, o.toMs with
    | some f, some t => some ((f : ℚ) / 1000, (t : ℚ) / 1000)
    | _, _ => none
  | none => none

/-- Spec strategy 2: explicit `start`/`end` fields used as-is. -/
def specStartEnd (s : whisperSeg) : Option (ℚ × ℚ) :=
  match s.start?, s.end? with
  | some a, some b => some (a, b)
  | _, _ => none

/-- Spec strategy 3: `t0`/`t1` frame indices in 10 ms units, seconds = value × 0.01. -/
def specFrameIndex (s : whisperSeg) : Option (ℚ × ℚ) :=
  match s.t0, s.t1 with
  | some a, some b => some ((a : ℚ) * (1 / 100), (b : ℚ) * (1 / 100))
  | _, _ => none

/-- Spec strategy 4: string timestamps `"HH:MM:SS[.mmm]"` parsed to seconds
(the typo'd `timestanps` key is accepted as an alias). -/
def specStringTimestamps (s : whisperSeg) : Option (ℚ × ℚ) :=
  match (match s.timestamps with | some ts => some ts | none => s.timeStanps) with
  | some ts =>
    if ts.fromStr ≠ "" ∧ ts.toStr ≠ "" then
      match parseTimestamp ts.fromStr, parseTimestamp ts.toStr with
      | Except.ok a, Except.ok b => some (a, b)
      | _, _ => none
    else none
  | none => none

/-- The spec's ordered fallback chain: the first strategy that succeeds wins. -/
def specFallbackChain (s : whisperSeg) : Option (ℚ × ℚ) :=
  ((specMsOffsets s).orElse fun _ =>
    (specStartEnd s).orElse fun _ =>
      (specFrameIndex s).orElse fun _ => specStringTimestamps s)

/-! ### The job store (`internal/store`) -/

/-- The columns of a `processing_jobs` row touched by the worker. -/
structure JobRow where
  status : String
  progress : Nat
  totalChunks : Option Nat := none
  currentChunk : Option Nat := none
  result : Option String := none
  transcriptId : Option Nat := none
deriving Repr, DecidableEq

/-- Embeds `store.CreateJob`: a fresh job row is `pending` at the caller-supplied
initial progress (the upload handler passes `5`). -/
def createJob (initialProgress : Nat) : JobRow :=
  { status := "pending", progress := initialProgress }

/-- Embeds `store.UpdateJobProgress`: its `status` and `progress` are overwritten
unconditionally; the remaining columns use `COALESCE(new, old)`, so a `none`
argument leaves the stored value unchanged. -/
def updateJobProgress (row : JobRow) (status : String) (progress : Nat)
    (totalChunks currentChunk : Option Nat) (result : Option String)
    (transcriptId : Option Nat) : JobRow :=
  { status := status
    progress := progress
    totalChunks := totalChunks.orElse fun _ => row.totalChunks
    currentChunk := currentChunk.orElse fun _ => row.currentChunk
    result := result.orElse fun _ => row.result
    transcriptId := transcriptId.orElse fun _ => row.transcriptId }

/-- One durable `UpdateJobProgress` call issued by the worker. -/
structure Write where
  status : String
  progress : Nat
  totalChunks : Option Nat := none
  currentChunk : Option Nat := none
  result : Option String := none
  transcriptId : Option Nat := none
deriving Repr, DecidableEq

/-- Replay a sequence of progress writes against a job row. -/
def applyWrites (row : JobRow) (ws : List Write) : JobRow :=
  ws.foldl (fun r w =>
    updateJobProgress r w.status w.progress w.totalChunks w.currentChunk w.result w.transcriptId) row

/-- Embeds `store.TranscriptSegmentInput`. -/
structure TranscriptSegmentInput where
  startTime : ℚ
  endTime : ℚ
  text : String
deriving Repr, DecidableEq

/-- A row of the `transcripts` table (columns written by the worker path). -/
structure TranscriptRow where
  id : Nat
  conversationId : Nat
  fileName : String
  transcriptText : String
  duration : Option ℚ
  language : Option String
  model : Option String
  audioFileURL : String
deriving Repr, DecidableEq

/-- A row of the `transcript_segments` table. -/
structure SegmentRow where
  transcriptId : Nat
  startTime : ℚ
  endTime : ℚ
  text : String
deriving Repr, DecidableEq

/-- The persistent state relevant to transcript persistence. -/
structure DB where
  transcripts : List TranscriptRow := []
  segments : List SegmentRow := []
  nextTranscriptId : Nat := 1
deriving Repr, DecidableEq

/-- Embeds `store.stringsTrim`: strips leading and trailing space, newline, tab and
carriage return. -/
def stringsTrim (s : String) : String :=
  let ws := fun c => c = ' ' || c = '\n' || c = '\t' || c = '\r'
  (((s.toList.dropWhile ws).reverse.dropWhile ws).reverse).asString

/-- Embeds `store.CreateTranscriptWithSegments`.  Every statement runs inside one
SQL transaction with a deferred rollback, so whichever statement or the
commit fails (modelled by `txFail`), the database is left unchanged; on
success the transcript row and all its non-blank segment rows are committed
together. -/
def createTranscriptWithSegments (db : DB) (txFail : Option String)
    (conversationId : Nat) (fileName transcriptText : String)
    (duration : Option ℚ) (language model : Option String) (audioURL : String)
    (segments : List TranscriptSegmentInput) : DB × Except String Nat :=
  match txFail with
  | some msg => (db, Except.error msg)
  | none =>
    let tid := db.nextTranscriptId
    let segRows := (segments.filter fun seg => stringsTrim seg.text ≠ "").map
      fun seg => SegmentRow.mk tid seg.startTime seg.endTime seg.text
    ({ transcripts := db.transcripts ++
        [⟨tid, conversationId, fileName, transcriptText, duration, language, model, audioURL⟩]
       segments := db.segments ++ segRows
       nextTranscriptId := tid + 1 }, Except.ok tid)

/-! ### The worker (`internal/jobs.process`) -/

/-- What `TranscribeChunk` returned for one chunk: the parsed
`(segments, text, language)` triple, or the error of a failed engine
invocation / unreadable or invalid output. -/
inductive ChunkOutcome where
  | ok (segs : List Segment) (text : String) (lang : Option String)
  | fail (msg : String)
deriving Repr, DecidableEq

/-- Tests for the `ChunkOutcome.ok` constructor. -/
def ChunkOutcome.isOk : ChunkOutcome → Bool
  | .ok _ _ _ => true
  | .fail _ => false

/-- One chunk produced by `ChunkAudio` together with what transcribing it
yields. -/
structure ChunkRun where
  offset : ℚ
  outcome : ChunkOutcome
deriving Repr, DecidableEq

/-- The environment of one `process` call: each field models the outcome of
one external interaction of the worker. -/
structure WorkerEnv where
  configured : Bool := true
  mkTempErr : Option String := none
  chunkResult : Except String (List ChunkRun) := Except.ok []
  persistErr : Option String := none
deriving Repr

/-- The job fields `process` reads. -/
structure Job where
  jobId : Nat
  conversationId : Nat
  fileName : String
deriving Repr, DecidableEq

/-- Embeds `15 + (65*current)/max(1, total)` — the per-chunk progress checkpoint
(Go's truncating division on positive ints is `Nat` division). -/
def chunkProgress (current total : Nat) : Nat :=
  15 + 65 * current / max 1 total

/-- Accumulator of the chunk loop in `process`. -/
structure LoopState where
  combined : List Segment
  textParts : List String
  lang : Option String
deriving Repr, DecidableEq

/-- The accumulation step of the chunk loop in `jobs.process` for a chunk
that transcribed successfully: keep the first non-blank language, append the
offset-shifted segments, and append the trimmed chunk text when non-empty. -/
def accumChunk (st : LoopState) (run : ChunkRun) : LoopState :=
  match run.outcome with
  | .fail _ => st
  | .ok segs txt clang =>
    { combined := st.combined ++ segs.map fun s =>
        Segment.mk (s.start + run.offset) (s.endT + run.offset) s.text
      textParts := if goTrimSpace txt ≠ "" then st.textParts ++ [goTrimSpace txt] else st.textParts
      lang :=
        match st.lang, clang with
        | none, some l => if goTrimSpace l ≠ "" then some l else none
        | l, _ => l }

/-- The chunk loop of `jobs.process`: for chunk `current = i+1` it first
durably writes the per-chunk checkpoint, then transcribes; a failure writes
the `failed` record (progress 100) and stops, a success accumulates via
`accumChunk`. -/
def processChunks (total : Nat) : List ChunkRun → Nat → LoopState →
    List Write × Option LoopState
  | [], _, st => ([], some st)
  | run :: rest, i, st =>
    let current := i + 1
    let w1 : Write := ⟨"processing", chunkProgress current total, none, some current, none, none⟩
    match run.outcome with
    | .fail msg =>
      ([w1, ⟨"failed", 100, none, some current, some msg, none⟩], none)
    | .ok _ _ _ =>
      let res := processChunks total rest (i + 1) (accumChunk st run)
      (w1 :: res.1, res.2)

/-- Embeds `jobs.process`: the full worker body for one job.  Returns the ordered
list of durable job writes and the resulting database.  Mirrors
`internal/jobs/queue.go`: every failure path writes
`("failed", 100, …, error message)`; persistence passes a `nil` duration. -/
def process (j : Job) (env : WorkerEnv) (db : DB) : List Write × DB :=
  let w0 : Write := ⟨"processing", 10, none, none, none, none⟩
  if ¬ env.configured then
    ([w0, ⟨"failed", 100, none, none, some "pipeline not configured", none⟩], db)
  else
    match env.mkTempErr with
    | some msg => ([w0, ⟨"failed", 100, none, none, some msg, none⟩], db)
    | none =>
      match env.chunkResult with
      | Except.error msg => ([w0, ⟨"failed", 100, none, none, some msg, none⟩], db)
      | Except.ok runs =>
        let total := runs.length
        let w1 : Write := ⟨"processing", 15, some total, some 0, none, none⟩
        let loop := processChunks total runs 0 ⟨[], [], none⟩
        match loop.2 with
        | none => (w0 :: w1 :: loop.1, db)
        | some st =>
          let w2 : Write := ⟨"processing", 85, none, some total, none, none⟩
          let transcriptText := String.intercalate " " st.textParts
          let inputSegments := (st.combined.filter fun s => ¬ goTrimSpace s.text = "").map
            fun s => TranscriptSegmentInput.mk s.start s.endT s.text
          let persisted := createTranscriptWithSegments db env.persistErr j.conversationId
            j.fileName transcriptText none st.lang (some "whisper.cpp")
            ("/api/audio/" ++ toString j.conversationId) inputSegments
          match persisted.2 with
          | Except.error msg =>
            (w0 :: w1 :: loop.1 ++ [w2, ⟨"failed", 100, none, none, some msg, none⟩], persisted.1)
          | Except.ok tid =>
            (w0 :: w1 :: loop.1 ++
              [w2, ⟨"completed", 100, none, some total, some "success", some tid⟩], persisted.1)

/-! ### Derived descriptions of a successful run -/

/-- The checkpoint trace of a fully successful run, as the spec's state
machine table (§4.4) describes it: claim 10 — segmentation done 15 — chunk
`i` of `N` at `15 + ⌊65·i/N⌋` — merge/persist begins 85 — completed 100 with
the transcript reference. -/
def specCheckpointTrace (total tid : Nat) : List Write :=
  ⟨"processing", 10, none, none, none, none⟩ ::
    ⟨"processing", 15, some total, some 0, none, none⟩ ::
    ((List.range total).map fun k =>
      ⟨"processing", chunkProgress (k + 1) total, none, some (k + 1), none, none⟩) ++
    [⟨"processing", 85, none, some total, none, none⟩,
     ⟨"completed", 100, none, some total, some "success", some tid⟩]

/-- The per-chunk texts surviving the worker loop, in chunk order: the
trimmed chunk-level text of every successfully transcribed chunk whose text
is non-empty after trimming. -/
def chunkTexts : List ChunkRun → List String
  | [] => []
  | run :: rest =>
    (match run.outcome with
     | .fail _ => []
     | .ok _ txt _ => if goTrimSpace txt ≠ "" then [goTrimSpace txt] else []) ++ chunkTexts rest

/-- The segment rows committed for a successful job: the worker drops
segments whose text trims blank, and the store again drops blank-trimming
texts inside the transaction. -/
def persistedSegmentRows (tid : Nat) (combined : List Segment) : List SegmentRow :=
  (((combined.filter fun s => ¬ goTrimSpace s.text = "").map
      fun s => TranscriptSegmentInput.mk s.start s.endT s.text).filter
      fun seg => stringsTrim seg.text ≠ "").map
    fun seg => SegmentRow.mk tid seg.startTime seg.endTime seg.text

/-- The transcript row committed for a successful job.  Note the `duration`
column: `jobs.process` passes a nil duration to
`CreateTranscriptWithSegments`, so it is always null. -/
def completedTranscriptRow (j : Job) (db : DB) (runs : List ChunkRun) : TranscriptRow :=
  { id := db.nextTranscriptId
    conversationId := j.conversationId
    fileName := j.fileName
    transcriptText := String.intercalate " " ((runs.foldl accumChunk ⟨[], [], none⟩).textParts)
    duration := none
    language := (runs.foldl accumChunk ⟨[], [], none⟩).lang
    model := some "whisper.cpp"
    audioFileURL := "/api/audio/" ++ toString j.conversationId }

/-- A transcription-engine-backed chunk: what `TranscribeChunk` returns when
the engine invocation succeeds and writes the decoded document `w`. -/
def runOfEngineOutput (offset : ℚ) (w : whisperJSON) : ChunkRun :=
  ⟨offset, ChunkOutcome.ok (parseWhisperJSON w).1 (parseWhisperJSON w).2.1 (parseWhisperJSON w).2.2⟩

/-- States that some stage of the job failed: the pipeline is unconfigured, the temp
dir could not be created, chunking failed, some chunk's transcription
failed, or the persistence transaction failed. -/
def stageFails (env : WorkerEnv) : Prop :=
  env.configured = false ∨ env.mkTempErr.isSome = true ∨
    (∃ m, env.chunkResult = Except.error m) ∨
    (∃ runs, env.chunkResult = Except.ok runs ∧
      ((∃ r ∈ runs, ∃ m, r.outcome = ChunkOutcome.fail m) ∨ env.persistErr.isSome = true))

/-! ### Segmenter (`pipeline.chunkAudio`, claim C9) -/

/-- Modelled from the spec: the number of files produced by ffmpeg's
`-f segment` muxer (an external tool — the repository only invokes it): a
decodable input of total duration `L` seconds split every `D` seconds yields
`ceil(L / D)` files. -/
def ffmpegSegmentCount (L : ℚ) (D : ℕ) : ℕ := ⌈L / (D : ℚ)⌉₊

/-- Modelled from the spec: the time span covered by the `i`-th (0-based)
file ffmpeg produces — `D` seconds, except that the final file ends at `L`. -/
def ffmpegChunkSpan (L : ℚ) (D : ℕ) (i : ℕ) : ℚ := min (D : ℚ) (L - i * D)

/-- Embeds `pipeline.Chunk` (the path is omitted; the glob-sorted file list is
positional). -/
structure AudioChunk where
  offset : ℚ
  index : ℕ
deriving Repr, DecidableEq

/-- Embeds `pipeline.chunkAudio`: the sorted chunk files are assigned
`Offset = float64(i * ChunkSeconds)` and 1-based `Index = i + 1`. -/
def chunkAudio (chunkSeconds : ℕ) (L : ℚ) : List AudioChunk :=
  (List.range (ffmpegSegmentCount L chunkSeconds)).map fun i =>
    ⟨((i * chunkSeconds : ℕ) : ℚ), i + 1⟩


/-! ### Concrete environments used in scenario theorems -/

/-- A 3-chunk fully successful environment. -/
def envThreeOk : WorkerEnv :=
  { chunkResult := Except.ok
      [⟨0, ChunkOutcome.ok [⟨0, 2, "a"⟩] "a" (some "en")⟩,
       ⟨15, ChunkOutcome.ok [] "" none⟩,
       ⟨30, ChunkOutcome.ok [⟨1, 2, "b"⟩] "b" none⟩] }

/-- An environment whose chunking step fails. -/
def envChunkErr : WorkerEnv :=
  { chunkResult := Except.error "ffmpeg chunking failed: exit status 1" }

/-- One successful chunk carrying one three-second segment. -/
def envOneSegment : WorkerEnv :=
  { chunkResult := Except.ok [⟨0, ChunkOutcome.ok [⟨0, 3, "hi"⟩] "hi" none⟩] }

/-- One successful chunk with a chunk-level text but no usable segments. -/
def envTextNoSegments : WorkerEnv :=
  { chunkResult := Except.ok [⟨0, ChunkOutcome.ok [] "hello" none⟩] }

/-- An environment that fails at chunk 2 of 3. -/
def envFailAtTwo : WorkerEnv :=
  { chunkResult := Except.ok
      [⟨0, ChunkOutcome.ok [⟨0, 2, "a"⟩] "a" none⟩,
       ⟨15, ChunkOutcome.fail "whisper failed: exit status 1"⟩,
       ⟨30, ChunkOutcome.ok [] "" none⟩] }

/-- A raw segment record with usable times but whitespace-only text. -/
def blankTextSeg : whisperSeg := { text := " ", t0 := some 0, t1 := some 100 }

/-! ### Helper lemmas -/



theorem processChunks_ok (total : Nat) (runs : List ChunkRun) :
    ∀ (i : Nat) (st : LoopState), (∀ r ∈ runs, r.outcome.isOk = true) →
      processChunks total runs i st =
        ((List.range runs.length).map fun k =>
          ⟨"processing", chunkProgress (i + k + 1) total, none, some (i + k + 1), none, none⟩,
         some (runs.foldl accumChunk st)) := by
  induction runs with
  | nil => intro i st _; simp [processChunks]
  | cons run rest ih =>
    intro i st h
    have hr : run.outcome.isOk = true := h run (by simp)
    cases hout : run.outcome with
    | fail m => rw [hout] at hr; simp [ChunkOutcome.isOk] at hr
    | ok segs txt clang =>
      simp only [processChunks, hout]
      rw [ih (i + 1) (accumChunk st run) (fun r hm => h r (by simp [hm]))]
      simp only [List.length_cons, List.range_succ_eq_map, List.map_cons, List.map_map,
        List.foldl_cons]
      refine congrArg₂ Prod.mk (congrArg₂ List.cons rfl ?_) rfl
      apply List.map_congr_left
      intro k _
      have hk : i + 1 + k + 1 = i + (k + 1) + 1 := by omega
      simp [Function.comp, hk]

theorem process_ok (j : Job) (db : DB) (env : WorkerEnv) (runs : List ChunkRun)
    (h1 : env.configured = true) (h2 : env.mkTempErr = none)
    (h3 : env.chunkResult = Except.ok runs) (h4 : ∀ r ∈ runs, r.outcome.isOk = true)
    (h5 : env.persistErr = none) :
    process j env db =
      (specCheckpointTrace runs.length db.nextTranscriptId,
       { transcripts := db.transcripts ++ [completedTranscriptRow j db runs]
         segments := db.segments ++
           persistedSegmentRows db.nextTranscriptId
             ((runs.foldl accumChunk ⟨[], [], none⟩).combined)
         nextTranscriptId := db.nextTranscriptId + 1 }) := by
  simp only [process, h1, h2, h3, h5, not_true, if_false, Bool.not_true]
  rw [processChunks_ok runs.length runs 0 ⟨[], [], none⟩ h4]
  simp only [Nat.zero_add, createTranscriptWithSegments, specCheckpointTrace,
    completedTranscriptRow, persistedSegmentRows]





theorem chunkProgress_zero (total : Nat) : chunkProgress 0 total = 15 := by
  simp [chunkProgress]

theorem chunkProgress_mono (c total : Nat) : chunkProgress c total ≤ chunkProgress (c + 1) total := by
  unfold chunkProgress
  have h1 : 65 * c ≤ 65 * (c + 1) := by omega
  have := Nat.div_le_div_right (c := max 1 total) h1
  omega

theorem chunkProgress_le (c total : Nat) (h : c ≤ total) : chunkProgress c total ≤ 80 := by
  unfold chunkProgress
  have h1 : 65 * c ≤ 65 * max 1 total :=
    Nat.mul_le_mul_left 65 (le_trans h (Nat.le_max_right 1 total))
  have h2 : 65 * c / max 1 total ≤ 65 * max 1 total / max 1 total := Nat.div_le_div_right h1
  have h3 : 65 * max 1 total / max 1 total = 65 :=
    Nat.mul_div_cancel 65 (lt_of_lt_of_le Nat.zero_lt_one (Nat.le_max_left 1 total))
  omega

theorem processChunks_fail (total : Nat) (runs : List ChunkRun) :
    ∀ (i : Nat) (st : LoopState),
      (∃ r ∈ runs, ∃ m, r.outcome = ChunkOutcome.fail m) →
      (processChunks total runs i st).2 = none ∧
      (∃ c m, (processChunks total runs i st).1.getLast? =
        some ⟨"failed", 100, none, some c, some m, none⟩) := by
  induction runs with
  | nil => intro i st h; simp at h
  | cons run rest ih =>
    intro i st h
    cases hout : run.outcome with
    | fail m =>
      refine ⟨?_, i + 1, m, ?_⟩ <;> simp [processChunks, hout]
    | ok segs txt clang =>
      have hrest : ∃ r ∈ rest, ∃ m, r.outcome = ChunkOutcome.fail m := by
        rcases h with ⟨r, hmem, m, hm⟩
        rcases List.mem_cons.1 hmem with heq | hmem2
        · subst heq; rw [hout] at hm; cases hm
        · exact ⟨r, hmem2, m, hm⟩
      obtain ⟨hnone, c, m, hlast⟩ := ih (i + 1) (accumChunk st run) hrest
      simp only [processChunks, hout]
      refine ⟨hnone, c, m, ?_⟩
      cases hws : (processChunks total rest (i + 1) (accumChunk st run)).1 with
      | nil => rw [hws] at hlast; simp at hlast
      | cons a l =>
        rw [hws] at hlast
        rw [List.getLast?_cons_cons]
        exact hlast

theorem processChunks_chain (total : Nat) (runs : List ChunkRun) :
    ∀ (i : Nat) (st : LoopState), i + runs.length ≤ total →
      List.Chain' (· ≤ ·)
        (chunkProgress i total :: (processChunks total runs i st).1.map Write.progress) ∧
      ((processChunks total runs i st).2.isSome = true →
        ∀ p ∈ (processChunks total runs i st).1.map Write.progress, p ≤ 80) := by
  induction runs with
  | nil =>
    intro i st _
    simp [processChunks]
  | cons run rest ih =>
    intro i st hlen
    have hcur : i + 1 ≤ total := by simp at hlen; omega
    cases hout : run.outcome with
    | fail m =>
      simp only [processChunks, hout, List.map_cons, List.map_nil]
      constructor
      · refine List.chain'_cons.2 ⟨chunkProgress_mono i total, ?_⟩
        refine List.chain'_cons.2 ⟨le_trans (chunkProgress_le (i + 1) total hcur) (by omega), ?_⟩
        simp
      · intro hsome
        simp at hsome
    | ok segs txt clang =>
      have hlen2 : (i + 1) + rest.length ≤ total := by simp at hlen; omega
      obtain ⟨hchain, hbound⟩ := ih (i + 1) (accumChunk st run) hlen2
      simp only [processChunks, hout, List.map_cons]
      constructor
      · exact List.chain'_cons.2 ⟨chunkProgress_mono i total, hchain⟩
      · intro hsome p hp
        rcases List.mem_cons.1 hp with heq | hmem
        · subst heq; exact chunkProgress_le (i + 1) total hcur
        · exact hbound hsome p hmem

theorem applyWrites_last (ws : List Write) (w : Write) :
    ∀ (row : JobRow), ws.getLast? = some w →
      (applyWrites row ws).status = w.status ∧
      (applyWrites row ws).progress = w.progress ∧
      (∀ m, w.result = some m → (applyWrites row ws).result = some m) ∧
      (∀ t, w.transcriptId = some t → (applyWrites row ws).transcriptId = some t) := by
  induction ws with
  | nil => intro row h; simp at h
  | cons a l ih =>
    intro row h
    cases l with
    | nil =>
      simp at h
      subst h
      refine ⟨rfl, rfl, ?_, ?_⟩
      · intro m hm
        simp [applyWrites, updateJobProgress, hm, Option.orElse]
      · intro t ht
        simp [applyWrites, updateJobProgress, ht, Option.orElse]
    | cons b l2 =>
      rw [List.getLast?_cons_cons] at h
      have := ih (updateJobProgress row a.status a.progress a.totalChunks a.currentChunk
        a.result a.transcriptId) h
      simpa [applyWrites] using this

theorem foldl_accum_textParts (runs : List ChunkRun) :
    ∀ (st : LoopState), (runs.foldl accumChunk st).textParts = st.textParts ++ chunkTexts runs := by
  induction runs with
  | nil => intro st; simp [chunkTexts]
  | cons run rest ih =>
    intro st
    rw [List.foldl_cons, ih]
    cases hout : run.outcome with
    | fail m => simp [chunkTexts, accumChunk, hout]
    | ok segs txt clang =>
      simp only [chunkTexts, accumChunk, hout]
      by_cases htxt : goTrimSpace txt ≠ "" <;> simp [htxt]



end Listen

namespace Listen

/-! ### Claims -/

/-- C1: for every raw segment record, the adapter determines start/end by
trying exactly the four strategies in the fixed priority
ms-offsets, start/end, t0/t1 frame indices, string timestamps, using the
first that succeeds; `{from: 1000, to: 2500}` normalizes to
`{start: 1.0, end: 2.5}` and `{t0: 150, t1: 300}` to `{start: 1.5, end: 3.0}`. -/
theorem c1_fallback_chain :
    (∀ s : whisperSeg, segTimesSeconds s = specFallbackChain s) ∧
    segTimesSeconds { offsets := some ⟨some 1000, some 2500⟩ } = some (1, 5 / 2) ∧
    segTimesSeconds { t0 := some 150, t1 := some 300 } = some (3 / 2, 3) := by
  refine ⟨?_, by norm_num [segTimesSeconds], by norm_num [segTimesSeconds]⟩
  intro s
  obtain ⟨txt, st, en, t0, t1, offs, tss, tsp⟩ := s
  simp only [segTimesSeconds, specFallbackChain, specMsOffsets, specStartEnd, specFrameIndex,
    specStringTimestamps]
  rcases offs with _ | ⟨_ | f, _ | t⟩ <;>
    rcases st with _ | a <;> rcases en with _ | b <;>
    rcases t0 with _ | c <;> rcases t1 with _ | d <;> rfl

/-- C10: a job-progress update overwrites only `status` and `progress`
unconditionally; a `none` argument for `total_chunks`, `current_chunk`,
`result` or `transcript_id` leaves the stored column unchanged, and a column
that is set is never cleared by a later update. -/
theorem c10_update_frame :
    (∀ (row : JobRow) (st : String) (p : Nat),
      updateJobProgress row st p none none none none =
        { row with status := st, progress := p }) ∧
    (∀ (row : JobRow) (st : String) (p : Nat) (tc cc : Option Nat) (res : Option String)
        (tid : Option Nat),
      (updateJobProgress row st p tc cc res tid).status = st ∧
      (updateJobProgress row st p tc cc res tid).progress = p ∧
      (tc = none → (updateJobProgress row st p tc cc res tid).totalChunks = row.totalChunks) ∧
      (cc = none → (updateJobProgress row st p tc cc res tid).currentChunk = row.currentChunk) ∧
      (res = none → (updateJobProgress row st p tc cc res tid).result = row.result) ∧
      (tid = none → (updateJobProgress row st p tc cc res tid).transcriptId = row.transcriptId) ∧
      (row.totalChunks.isSome = true →
        (updateJobProgress row st p tc cc res tid).totalChunks.isSome = true) ∧
      (row.result.isSome = true →
        (updateJobProgress row st p tc cc res tid).result.isSome = true) ∧
      (row.transcriptId.isSome = true →
        (updateJobProgress row st p tc cc res tid).transcriptId.isSome = true)) := by
  constructor
  · intro row st p
    simp [updateJobProgress, Option.orElse]
  · intro row st p tc cc res tid
    refine ⟨rfl, rfl, ?_, ?_, ?_, ?_, ?_, ?_, ?_⟩ <;>
      first
        | (intro h; subst h; simp [updateJobProgress, Option.orElse])
        | (intro h;
           simp only [updateJobProgress]
           cases tc <;> cases cc <;> cases res <;> cases tid <;> simp_all [Option.orElse])

/-- C10 witness: a concrete update that supplies no optional column
preserves all of them and overwrites status/progress. -/
theorem c10_update_frame_witness :
    (updateJobProgress ⟨"processing", 15, some 3, some 1, some "e", some 9⟩
      "processing" 37 none none none none).totalChunks = some 3 ∧
    (updateJobProgress ⟨"processing", 15, some 3, some 1, some "e", some 9⟩
      "processing" 37 none none none none).result = some "e" ∧
    (updateJobProgress ⟨"processing", 15, some 3, some 1, some "e", some 9⟩
      "processing" 37 none none none none).status = "processing" := by
  have h := c10_update_frame.2 ⟨"processing", 15, some 3, some 1, some "e", some 9⟩
    "processing" 37 none none none none
  exact ⟨h.2.2.1 rfl, h.2.2.2.2.1 rfl, h.1⟩

/-- C9: for positive chunk duration `D` and total duration `L`, segmentation
yields `ceil(L/D)` chunks with contiguous 1-based indexes and
`offset[i] = i × D` (0-based `i`); every chunk except possibly the last
spans exactly `D` seconds; 47 s at `D = 15` gives 4 chunks with offsets
`[0, 15, 30, 45]`, the last spanning 2 s.  The ffmpeg segment muxer itself
is an external tool, modelled from the spec as producing `ceil(L/D)` files. -/
theorem c9_chunking (D : ℕ) (L : ℚ) (hD : 0 < D) :
    ((chunkAudio D L).length = ⌈L / (D : ℚ)⌉₊) ∧
    (∀ i (h : i < (chunkAudio D L).length),
      ((chunkAudio D L).get ⟨i, h⟩).offset = (i : ℚ) * (D : ℚ) ∧
      ((chunkAudio D L).get ⟨i, h⟩).index = i + 1) ∧
    (∀ i : ℕ, i + 1 < (chunkAudio D L).length → ffmpegChunkSpan L D i = (D : ℚ)) ∧
    (ffmpegChunkSpan L D ((chunkAudio D L).length - 1) ≤ (D : ℚ)) ∧
    (chunkAudio 15 47 = [⟨0, 1⟩, ⟨15, 2⟩, ⟨30, 3⟩, ⟨45, 4⟩]) ∧
    ffmpegChunkSpan 47 15 3 = 2 := by
  have hD' : (0 : ℚ) < (D : ℚ) := by exact_mod_cast hD
  refine ⟨?_, ?_, ?_, ?_, ?_, ?_⟩
  · simp [chunkAudio, ffmpegSegmentCount]
  · intro i h
    simp [chunkAudio, Nat.cast_mul]
  · intro i hi
    have hlen : (chunkAudio D L).length = ⌈L / (D : ℚ)⌉₊ := by
      simp [chunkAudio, ffmpegSegmentCount]
    rw [hlen] at hi
    have hlt : ((i + 1 : ℕ) : ℚ) < L / (D : ℚ) := Nat.lt_ceil.mp hi
    have hmul : ((i + 1 : ℕ) : ℚ) * (D : ℚ) < L := (lt_div_iff₀ hD').mp hlt
    have : (D : ℚ) ≤ L - (i : ℚ) * (D : ℚ) := by push_cast at hmul ⊢; linarith
    simpa [ffmpegChunkSpan] using min_eq_left this
  · exact min_le_left _ _
  · have hcount : ffmpegSegmentCount 47 15 = 4 := by
      unfold ffmpegSegmentCount
      rw [show ((15 : ℕ) : ℚ) = 15 by norm_num]
      rw [Nat.ceil_eq_iff (by norm_num)]
      norm_num
    simp only [chunkAudio, hcount]
    norm_num [List.range_succ]
  · norm_num [ffmpegChunkSpan]

/-- C9 witness: the theorem applied at the concrete scenario `D = 15`,
`L = 47`. -/
theorem c9_chunking_witness :
    chunkAudio 15 47 = [⟨0, 1⟩, ⟨15, 2⟩, ⟨30, 3⟩, ⟨45, 4⟩] ∧ ffmpegChunkSpan 47 15 3 = 2 :=
  ⟨(c9_chunking 15 47 (by norm_num)).2.2.2.2.1, (c9_chunking 15 47 (by norm_num)).2.2.2.2.2⟩

theorem process_fail_last (j : Job) (env : WorkerEnv) (db : DB) (h : stageFails env) :
    ∃ w, (process j env db).1.getLast? = some w ∧
      w.status = "failed" ∧ w.progress = 100 ∧ ∃ m, w.result = some m := by
  by_cases hc : env.configured = true
  case neg =>
    have hc' : env.configured = false := by simpa using hc
    refine ⟨⟨"failed", 100, none, none, some "pipeline not configured", none⟩, ?_, rfl, rfl, _, rfl⟩
    simp only [process, hc']
    rw [if_pos (by simp)]
    rfl
  case pos =>
    cases hm : env.mkTempErr with
    | some m =>
      refine ⟨⟨"failed", 100, none, none, some m, none⟩, ?_, rfl, rfl, m, rfl⟩
      simp only [process, hc, hm, not_true, if_false]
      rfl
    | none =>
      cases hcr : env.chunkResult with
      | error m =>
        refine ⟨⟨"failed", 100, none, none, some m, none⟩, ?_, rfl, rfl, m, rfl⟩
        simp only [process, hc, hm, hcr, not_true, if_false]
        rfl
      | ok runs =>
        by_cases hfail : ∃ r ∈ runs, ∃ m, r.outcome = ChunkOutcome.fail m
        · obtain ⟨hnone, c, m, hlast⟩ :=
            processChunks_fail runs.length runs 0 ⟨[], [], none⟩ hfail
          refine ⟨⟨"failed", 100, none, some c, some m, none⟩, ?_, rfl, rfl, m, rfl⟩
          simp only [process, hc, hm, hcr, hnone, not_true, if_false]
          cases hl : (processChunks runs.length runs 0 ⟨[], [], none⟩).1 with
          | nil => rw [hl] at hlast; simp at hlast
          | cons a l =>
            rw [hl] at hlast
            rw [List.getLast?_cons_cons, List.getLast?_cons_cons]
            exact hlast
        · have hok : ∀ r ∈ runs, r.outcome.isOk = true := by
            intro r hr
            cases hro : r.outcome with
            | ok segs txt clang => simp [ChunkOutcome.isOk]
            | fail m => exact absurd ⟨r, hr, m, hro⟩ hfail
          have hp : env.persistErr.isSome = true := by
            rcases h with h | h | ⟨m, h⟩ | ⟨runs', hr', hcase⟩
            · rw [hc] at h; cases h
            · rw [hm] at h; cases h
            · rw [hcr] at h; cases h
            · rw [hcr] at hr'
              injection hr' with he
              subst he
              rcases hcase with hfail' | hp
              · exact absurd hfail' hfail
              · exact hp
          obtain ⟨m, hpm⟩ := Option.isSome_iff_exists.mp hp
          refine ⟨⟨"failed", 100, none, none, some m, none⟩, ?_, rfl, rfl, m, rfl⟩
          simp only [process, hc, hm, hcr, hpm, not_true, if_false,
            processChunks_ok runs.length runs 0 ⟨[], [], none⟩ hok,
            createTranscriptWithSegments]
          rw [List.getLast?_append_of_ne_nil _ (by simp), List.getLast?_cons_cons]
          rfl

/-- C3 (amended): whenever any stage of a job fails, the job record ends
`failed` with a non-null error message and with progress written as 100 (the
full-bar failure convention of `jobs.process`), not the pre-failure progress
value. -/
theorem c3_amended_failure_state (j : Job) (env : WorkerEnv) (db : DB) (row : JobRow)
    (h : stageFails env) :
    (applyWrites row (process j env db).1).status = "failed" ∧
    (applyWrites row (process j env db).1).progress = 100 ∧
    (applyWrites row (process j env db).1).result.isSome = true := by
  obtain ⟨w, hlast, hst, hpr, m, hres⟩ := process_fail_last j env db h
  obtain ⟨h1, h2, h3, _⟩ := applyWrites_last (process j env db).1 w row hlast
  exact ⟨hst ▸ h1, hpr ▸ h2, by rw [h3 m hres]; rfl⟩

/-- C3 counterexample: a job whose chunking stage fails had last recorded
progress 10, but the failure write records progress 100 — the progress is
not "left unchanged from the last value recorded before the failure". -/
theorem c3_counterexample :
    (process ⟨1, 7, "f"⟩ envChunkErr {}).1.map Write.progress = [10, 100] ∧
    (process ⟨1, 7, "f"⟩ envChunkErr {}).1.map Write.status = ["processing", "failed"] ∧
    ¬ (100 = 10) := by decide

/-- C3 witness: the amended theorem applied to the concrete chunking
failure. -/
theorem c3_amended_failure_state_witness :
    (applyWrites (createJob 5) (process ⟨1, 7, "f"⟩ envChunkErr {}).1).status = "failed" ∧
    (applyWrites (createJob 5) (process ⟨1, 7, "f"⟩ envChunkErr {}).1).progress = 100 :=
  ⟨(c3_amended_failure_state ⟨1, 7, "f"⟩ envChunkErr {} (createJob 5)
      (Or.inr (Or.inr (Or.inl ⟨"ffmpeg chunking failed: exit status 1", rfl⟩)))).1,
   (c3_amended_failure_state ⟨1, 7, "f"⟩ envChunkErr {} (createJob 5)
      (Or.inr (Or.inr (Or.inl ⟨"ffmpeg chunking failed: exit status 1", rfl⟩)))).2.1⟩

/-- C4: a successful job records exactly the checkpoints
`processing/10`, `processing/15 (total_chunks = N, current_chunk = 0)`,
`processing/15+⌊65·i/N⌋ (current_chunk = i)` for `i = 1..N`,
`processing/85`, `completed/100 (result reference set)`, in this order; a
3-chunk job passes through progress `10, 15, 36, 58, 80, 85, 100` with
status sequence pending → processing → completed. -/
theorem c4_checkpoints (j : Job) (env : WorkerEnv) (db : DB) (runs : List ChunkRun)
    (h1 : env.configured = true) (h2 : env.mkTempErr = none)
    (h3 : env.chunkResult = Except.ok runs) (h4 : ∀ r ∈ runs, r.outcome.isOk = true)
    (h5 : env.persistErr = none) :
    (process j env db).1 = specCheckpointTrace runs.length db.nextTranscriptId ∧
    (createJob 5).status = "pending" ∧
    (specCheckpointTrace 3 1).map Write.progress = [10, 15, 36, 58, 80, 85, 100] ∧
    ((createJob 5).status :: (specCheckpointTrace 3 1).map Write.status).dedup =
      ["pending", "processing", "completed"] := by
  refine ⟨?_, rfl, by decide, by decide⟩
  rw [process_ok j db env runs h1 h2 h3 h4 h5]

/-- C4 witness: the theorem applied to a concrete successful 3-chunk job. -/
theorem c4_checkpoints_witness :
    (process ⟨1, 7, "f"⟩ envThreeOk {}).1 = specCheckpointTrace 3 1 :=
  (c4_checkpoints ⟨1, 7, "f"⟩ envThreeOk {} _ rfl rfl rfl (by decide) rfl).1

/-- C6: over any worker run — success or failure at any stage — the durably
written progress values, starting from the enqueue value 5, are pairwise
non-decreasing: no write records a lower percentage than any previous one. -/
theorem c6_progress_monotone (j : Job) (env : WorkerEnv) (db : DB) :
    List.Pairwise (· ≤ ·) ((createJob 5).progress :: (process j env db).1.map Write.progress) := by
  rw [← List.chain'_iff_pairwise]
  by_cases hc : env.configured = true
  case neg =>
    have hc' : env.configured = false := by simpa using hc
    simp only [process, hc', createJob]
    rw [if_pos (by simp)]
    show List.Chain' (· ≤ ·) [5, 10, 100]
    exact List.chain'_cons.2 ⟨by norm_num, List.chain'_cons.2 ⟨by norm_num,
      List.chain'_singleton _⟩⟩
  case pos =>
    cases hm : env.mkTempErr with
    | some m =>
      simp only [process, hc, hm, not_true, if_false, createJob]
      show List.Chain' (· ≤ ·) [5, 10, 100]
      exact List.chain'_cons.2 ⟨by norm_num, List.chain'_cons.2 ⟨by norm_num,
        List.chain'_singleton _⟩⟩
    | none =>
      cases hcr : env.chunkResult with
      | error m =>
        simp only [process, hc, hm, hcr, not_true, if_false, createJob]
        show List.Chain' (· ≤ ·) [5, 10, 100]
        exact List.chain'_cons.2 ⟨by norm_num, List.chain'_cons.2 ⟨by norm_num,
          List.chain'_singleton _⟩⟩
      | ok runs =>
        obtain ⟨hchain, hbound⟩ :=
          processChunks_chain runs.length runs 0 ⟨[], [], none⟩ (by omega)
        rw [chunkProgress_zero] at hchain
        cases hloop : (processChunks runs.length runs 0 ⟨[], [], none⟩).2 with
        | none =>
          simp only [process, hc, hm, hcr, hloop, not_true, if_false, createJob, List.map_cons]
          exact List.chain'_cons.2 ⟨by norm_num, List.chain'_cons.2 ⟨by norm_num, hchain⟩⟩
        | some st =>
          rw [hloop] at hbound
          have hb80 : ∀ p ∈ (processChunks runs.length runs 0 ⟨[], [], none⟩).1.map
              Write.progress, p ≤ 80 := hbound rfl
          have htail : List.Chain' (· ≤ ·) ((5 : ℕ) :: 10 :: 15 ::
              ((processChunks runs.length runs 0 ⟨[], [], none⟩).1.map Write.progress ++
                [85, 100])) := by
            refine List.chain'_cons.2 ⟨by norm_num, List.chain'_cons.2 ⟨by norm_num, ?_⟩⟩
            rw [show (15 : ℕ) ::
              ((processChunks runs.length runs 0 ⟨[], [], none⟩).1.map Write.progress ++
                [85, 100]) =
              (15 :: (processChunks runs.length runs 0 ⟨[], [], none⟩).1.map Write.progress) ++
                [85, 100] from rfl]
            refine List.chain'_append.2 ⟨hchain,
              List.chain'_cons.2 ⟨by norm_num, List.chain'_singleton _⟩, ?_⟩
            intro x hx y hy
            have hx' : x ∈ 15 ::
                (processChunks runs.length runs 0 ⟨[], [], none⟩).1.map Write.progress := by
              rcases List.mem_getLast?_eq_getLast hx with ⟨hne, rfl⟩
              exact List.getLast_mem hne
            have hy' : 85 = y := by simpa using hy
            subst hy'
            rcases List.mem_cons.1 hx' with rfl | hxm
            · norm_num
            · exact le_trans (hb80 x hxm) (by norm_num)
          cases hp : env.persistErr with
          | some m =>
            simp only [process, hc, hm, hcr, hloop, hp, not_true, if_false, createJob,
              createTranscriptWithSegments, List.map_cons, List.map_append, List.cons_append]
            exact htail
          | none =>
            simp only [process, hc, hm, hcr, hloop, hp, not_true, if_false, createJob,
              createTranscriptWithSegments, List.map_cons, List.map_append, List.cons_append]
            exact htail

theorem specCheckpointTrace_getLast (total tid : Nat) :
    (specCheckpointTrace total tid).getLast? =
      some ⟨"completed", 100, none, some total, some "success", some tid⟩ := by
  simp only [specCheckpointTrace]
  rw [List.getLast?_append_of_ne_nil _ (by simp), List.getLast?_cons_cons]
  rfl

theorem process_ok_final_row (j : Job) (env : WorkerEnv) (db : DB) (runs : List ChunkRun)
    (h1 : env.configured = true) (h2 : env.mkTempErr = none)
    (h3 : env.chunkResult = Except.ok runs) (h4 : ∀ r ∈ runs, r.outcome.isOk = true)
    (h5 : env.persistErr = none) (row : JobRow) :
    (applyWrites row (process j env db).1).status = "completed" ∧
    (applyWrites row (process j env db).1).progress = 100 ∧
    (applyWrites row (process j env db).1).transcriptId = some db.nextTranscriptId := by
  rw [process_ok j db env runs h1 h2 h3 h4 h5]
  obtain ⟨ha, hb, _, hd⟩ := applyWrites_last _ _ row
    (specCheckpointTrace_getLast runs.length db.nextTranscriptId)
  exact ⟨ha, hb, hd _ rfl⟩

theorem chunkTexts_runOfEngineOutput (ows : List (ℚ × whisperJSON)) :
    chunkTexts (ows.map fun p => runOfEngineOutput p.1 p.2) =
      (ows.map fun p => goTrimSpace (parseWhisperJSON p.2).2.1).filter fun t => ¬ t = "" := by
  induction ows with
  | nil => rfl
  | cons p rest ih =>
    simp only [List.map_cons, chunkTexts, runOfEngineOutput, List.filter_cons]
    by_cases h : goTrimSpace (parseWhisperJSON p.2).2.1 = "" <;>
      simp [h] <;> simpa [runOfEngineOutput] using ih

/-- C5: persistence is transactional — on any store failure the database is
left unchanged and the call reports the error; on success the transcript row
and all of its non-blank segment rows are committed together.  Consequently
a job that fails at chunk `k` of `N` ends `failed` with a non-null error and
zero persisted transcript/segment rows for that job. -/
theorem c5_atomic_persistence :
    (∀ (db : DB) (m : String) (cid : Nat) (fn txt : String) (dur : Option ℚ)
        (lang model : Option String) (url : String) (segs : List TranscriptSegmentInput),
      (createTranscriptWithSegments db (some m) cid fn txt dur lang model url segs).1 = db ∧
      (createTranscriptWithSegments db (some m) cid fn txt dur lang model url segs).2 =
        Except.error m) ∧
    (∀ (db : DB) (cid : Nat) (fn txt : String) (dur : Option ℚ)
        (lang model : Option String) (url : String) (segs : List TranscriptSegmentInput),
      (createTranscriptWithSegments db none cid fn txt dur lang model url segs).1.transcripts =
        db.transcripts ++ [⟨db.nextTranscriptId, cid, fn, txt, dur, lang, model, url⟩] ∧
      (createTranscriptWithSegments db none cid fn txt dur lang model url segs).1.segments =
        db.segments ++ ((segs.filter fun sg => stringsTrim sg.text ≠ "").map
          fun sg => SegmentRow.mk db.nextTranscriptId sg.startTime sg.endTime sg.text)) ∧
    (∀ (j : Job) (env : WorkerEnv) (db : DB) (runs : List ChunkRun) (k : Nat) (m : String)
        (_hc : env.configured = true) (_hm : env.mkTempErr = none)
        (_hcr : env.chunkResult = Except.ok runs)
        (hk : k < runs.length),
      (runs.get ⟨k, hk⟩).outcome = ChunkOutcome.fail m →
      (process j env db).2 = db ∧
      (applyWrites (createJob 5) (process j env db).1).status = "failed" ∧
      (applyWrites (createJob 5) (process j env db).1).result.isSome = true) := by
  refine ⟨?_, ?_, ?_⟩
  · intro db m cid fn txt dur lang model url segs
    exact ⟨rfl, rfl⟩
  · intro db cid fn txt dur lang model url segs
    exact ⟨rfl, rfl⟩
  · intro j env db runs k m hc hm hcr hk hfk
    have hfail : ∃ r ∈ runs, ∃ m', r.outcome = ChunkOutcome.fail m' :=
      ⟨runs.get ⟨k, hk⟩, runs.get_mem _ _, m, hfk⟩
    have hsf : stageFails env :=
      Or.inr (Or.inr (Or.inr ⟨runs, hcr, Or.inl hfail⟩))
    obtain ⟨hnone, _, _, _⟩ := processChunks_fail runs.length runs 0 ⟨[], [], none⟩ hfail
    obtain ⟨w, hlast, hst, _, m', hres⟩ := process_fail_last j env db hsf
    obtain ⟨ha, _, hcres, _⟩ := applyWrites_last _ _ (createJob 5) hlast
    refine ⟨?_, hst ▸ ha, by rw [hcres m' hres]; rfl⟩
    simp only [process, hc, hm, hcr, hnone, not_true, if_false]

/-- C5 witness: a concrete job failing at chunk 2 of 3 persists nothing and
ends failed with an error recorded. -/
theorem c5_atomic_persistence_witness :
    (process ⟨1, 7, "f"⟩ envFailAtTwo {}).2 = {} ∧
    (applyWrites (createJob 5) (process ⟨1, 7, "f"⟩ envFailAtTwo {}).1).status = "failed" :=
  ⟨(c5_atomic_persistence.2.2 ⟨1, 7, "f"⟩ envFailAtTwo {} _ 1
      "whisper failed: exit status 1" rfl rfl rfl (by decide) (by decide)).1,
   (c5_atomic_persistence.2.2 ⟨1, 7, "f"⟩ envFailAtTwo {} _ 1
      "whisper failed: exit status 1" rfl rfl rfl (by decide) (by decide)).2.1⟩

/-- C2 counterexample: (a) a completed job with one persisted segment (end
time 3) stores a null duration, not the maximum segment end 3; (b) a
completed job with zero persisted segments but an engine-supplied chunk
text stores the non-empty text "hello", not the empty string. -/
theorem c2_counterexample :
    ((applyWrites (createJob 5) (process ⟨1, 7, "f"⟩ envOneSegment {}).1).status = "completed" ∧
     (process ⟨1, 7, "f"⟩ envOneSegment {}).2.segments.length = 1 ∧
     (process ⟨1, 7, "f"⟩ envOneSegment {}).2.transcripts.map TranscriptRow.duration = [none] ∧
     ¬ ((none : Option ℚ) = some 3)) ∧
    ((applyWrites (createJob 5) (process ⟨1, 7, "f"⟩ envTextNoSegments {}).1).status =
        "completed" ∧
     (process ⟨1, 7, "f"⟩ envTextNoSegments {}).2.segments.length = 0 ∧
     (process ⟨1, 7, "f"⟩ envTextNoSegments {}).2.transcripts.map TranscriptRow.transcriptText =
       ["hello"] ∧
     ¬ ("hello" = "")) := by
  decide

/-- C2 (amended): for every completed job the persisted transcript's
duration is null regardless of segment count (the worker passes a nil
duration to the store), and its text is the space-joined list of non-empty
trimmed chunk texts — empty exactly when that list is empty, independent of
the segment count. -/
theorem c2_amended_duration_null (j : Job) (env : WorkerEnv) (db : DB) (runs : List ChunkRun)
    (h1 : env.configured = true) (h2 : env.mkTempErr = none)
    (h3 : env.chunkResult = Except.ok runs) (h4 : ∀ r ∈ runs, r.outcome.isOk = true)
    (h5 : env.persistErr = none) :
    ((process j env db).2.transcripts.map TranscriptRow.duration =
      db.transcripts.map TranscriptRow.duration ++ [none]) ∧
    ((process j env db).2.transcripts.map TranscriptRow.transcriptText =
      db.transcripts.map TranscriptRow.transcriptText ++
        [String.intercalate " " (chunkTexts runs)]) ∧
    (chunkTexts runs = [] →
      (process j env db).2.transcripts.map TranscriptRow.transcriptText =
        db.transcripts.map TranscriptRow.transcriptText ++ [""]) ∧
    (applyWrites (createJob 5) (process j env db).1).status = "completed" := by
  refine ⟨?_, ?_, ?_, (process_ok_final_row j env db runs h1 h2 h3 h4 h5 (createJob 5)).1⟩ <;>
    rw [process_ok j db env runs h1 h2 h3 h4 h5]
  · simp [completedTranscriptRow]
  · simp [completedTranscriptRow, foldl_accum_textParts]
  · intro hempty
    simp [completedTranscriptRow, foldl_accum_textParts, hempty, String.intercalate]

/-- C2 witness: the amended theorem applied to a concrete completed one-chunk
job — the persisted duration column is null. -/
theorem c2_amended_duration_null_witness :
    (process ⟨1, 7, "f"⟩ envOneSegment {}).2.transcripts.map TranscriptRow.duration = [none] :=
  (c2_amended_duration_null ⟨1, 7, "f"⟩ envOneSegment {} _ rfl rfl rfl (by decide) rfl).1

/-- C7: a raw record contributes a segment iff some timestamp strategy
succeeds and its trimmed text is non-empty; an unusable record is skipped
without error and contributes nothing to the segment list or the derived
text; and a chunk yielding zero usable segments still lets the job
complete. -/
theorem c7_record_filtering :
    (∀ w : whisperJSON, (parseWhisperJSON w).1 = (effectiveSegs w).filterMap usableSegment) ∧
    (∀ s : whisperSeg,
      (usableSegment s).isSome = true ↔
        (segTimesSeconds s).isSome = true ∧ ¬ goTrimSpace s.text = "") ∧
    (∀ (pre post : List whisperSeg) (s : whisperSeg), usableSegment s = none →
      (pre ++ s :: post).filterMap usableSegment = (pre ++ post).filterMap usableSegment ∧
      (∀ txt lang res, parseWhisperJSON ⟨txt, lang, res, pre ++ s :: post, []⟩ =
        parseWhisperJSON ⟨txt, lang, res, pre ++ post, []⟩)) ∧
    (∀ (j : Job) (db : DB) (off : ℚ) (txt : String) (lang : Option String),
      (applyWrites (createJob 5)
        (process j ⟨true, none, Except.ok [⟨off, ChunkOutcome.ok [] txt lang⟩], none⟩ db).1).status
        = "completed") := by
  refine ⟨fun w => rfl, ?_, ?_, ?_⟩
  · intro s
    unfold usableSegment
    cases segTimesSeconds s with
    | none => simp
    | some p =>
      obtain ⟨a, b⟩ := p
      by_cases h : goTrimSpace s.text = "" <;> simp [h]
  · intro pre post s h
    have hfm : (pre ++ s :: post).filterMap usableSegment =
        (pre ++ post).filterMap usableSegment := by
      simp [List.filterMap_append, List.filterMap_cons, h]
    refine ⟨hfm, ?_⟩
    intro txt lang res
    have heff : (effectiveSegs ⟨txt, lang, res, pre ++ s :: post, []⟩).filterMap usableSegment =
        (effectiveSegs ⟨txt, lang, res, pre ++ post, []⟩).filterMap usableSegment := by
      by_cases hpp : pre ++ post = []
      · obtain ⟨hpre, hpost⟩ := List.append_eq_nil.mp hpp
        subst hpre; subst hpost
        simp [effectiveSegs, List.filterMap_cons, h]
      · simp only [effectiveSegs]
        rw [if_neg (by simp), if_neg (by simpa using hpp)]
        exact hfm
    simp only [parseWhisperJSON, heff]
  · intro j db off txt lang
    exact (process_ok_final_row j ⟨true, none, Except.ok [⟨off, ChunkOutcome.ok [] txt lang⟩], none⟩
      db [⟨off, ChunkOutcome.ok [] txt lang⟩] rfl rfl rfl
      (by intro r hr; simp at hr; subst hr; rfl) rfl (createJob 5)).1

/-- C7 witness: a whitespace-only-text record (with usable `t0`/`t1` times)
is dropped and contributes nothing. -/
theorem c7_record_filtering_witness :
    ([] ++ blankTextSeg :: []).filterMap usableSegment =
      ([] ++ []).filterMap usableSegment :=
  (c7_record_filtering.2.2.1 [] [] blankTextSeg (by decide)).1

/-- C8: the persisted transcript text equals the concatenation, with a
single space and in chunk order, of every chunk's non-empty (trimmed) text,
where a chunk's text is the engine-supplied chunk-level `text` field when
non-empty after trimming and otherwise the space-joined texts of the chunk's
surviving segments. -/
theorem c8_transcript_text (j : Job) (db : DB) (ows : List (ℚ × whisperJSON))
    (env : WorkerEnv)
    (henv : env = { configured := true, mkTempErr := none,
                    chunkResult := Except.ok (ows.map fun p => runOfEngineOutput p.1 p.2),
                    persistErr := none }) :
    ((process j env db).2.transcripts.map TranscriptRow.transcriptText =
      db.transcripts.map TranscriptRow.transcriptText ++
        [String.intercalate " "
          ((ows.map fun p => goTrimSpace (parseWhisperJSON p.2).2.1).filter fun t => ¬ t = "")]) ∧
    (∀ w : whisperJSON, (parseWhisperJSON w).2.1 =
      if goTrimSpace w.text = ""
      then String.intercalate " " (((effectiveSegs w).filterMap usableSegment).map Segment.text)
      else goTrimSpace w.text) := by
  subst henv
  constructor
  · have hok : ∀ r ∈ (ows.map fun p => runOfEngineOutput p.1 p.2), r.outcome.isOk = true := by
      intro r hr
      obtain ⟨p, _, rfl⟩ := List.mem_map.1 hr
      rfl
    rw [process_ok j db _ _ rfl rfl rfl hok rfl]
    simp [completedTranscriptRow, foldl_accum_textParts, chunkTexts_runOfEngineOutput]
  · intro w
    rfl

/-- C8 witness: two chunks, the first with an engine-supplied text, the
second deriving its text from a surviving segment. -/
theorem c8_transcript_text_witness :
    (process ⟨1, 7, "f"⟩
      { configured := true, mkTempErr := none,
        chunkResult := Except.ok ([((0 : ℚ), { text := "hello" }),
          ((15 : ℚ), { segments := [{ text := "world", t0 := some 0, t1 := some 100 }] })].map
            fun p => runOfEngineOutput p.1 p.2),
        persistErr := none } {}).2.transcripts.map TranscriptRow.transcriptText =
      ([] : List TranscriptRow).map TranscriptRow.transcriptText ++
        [String.intercalate " "
          (([((0 : ℚ), ({ text := "hello" } : whisperJSON)),
             ((15 : ℚ), { segments := [{ text := "world", t0 := some 0, t1 := some 100 }] })].map
              fun p => goTrimSpace (parseWhisperJSON p.2).2.1).filter fun t => ¬ t = "")] :=
  (c8_transcript_text ⟨1, 7, "f"⟩ {} _ _ rfl).1

end Listen
